import Mathlib

/-!
Verification development for `render_all_lite.py`, a small static-site
generator.  The script is embedded shallowly: Python strings become
`List Char`, Python dictionaries become functions `List Char → Option α`
(with explicit update semantics), a data file is its path together with
the result of opening and parsing it (`Except` carries the exception
message of a failed parse), and the side effects of one pipeline run are
recorded as an explicit list of `Effect` values.

The file-system contents are inputs of the model: a list of data files
(as the operating system would enumerate `data/`, recursively) and a list
of template-tree paths (as `glob` would enumerate `templates/`,
recursively).  The two `glob.glob("data/*.[jJ][sS][oO][nN]")` /
`glob.glob("data/*.[yY][aA][mM][lL]")` calls of the source are modelled
as filters over that enumeration: the pattern forces the match to sit
directly inside `data/` (no `/` in the part matched by `*`), `glob` skips
names starting with a dot because the pattern does not start with one,
and the four-character class suffix is matched case-insensitively.
-/

namespace RenderAllLite

/-- Python strings are modelled as lists of characters. -/
abbrev Str := List Char

/-- The top-level mapping parsed out of one data file: key/value pairs in
file order (a later pair with the same key shadows an earlier one, as in
a Python dict built by the parser). -/
abbrev FileMap (α : Type) := List (Str × α)

/-- The merged context: a total lookup function, `none` for absent keys. -/
abbrev Ctx (α : Type) := Str → Option α

/-- One file of the data directory: its path as enumerated by the
operating system, and the result of opening and parsing it.  A failure
anywhere in `open`/`json.load`/`yaml.safe_load`/`dict.update` is an
`Except.error` carrying the exception message. -/
structure DataFile (α : Type) where
  path : Str
  parsed : Except Str (FileMap α)

/-- Progress lines printed by `load_data` (source lines 20 and 22). -/
inductive LogEntry
  | loaded (path : Str)
  | loadError (path : Str) (cause : Str)
deriving DecidableEq

/-- True when the string starts with a dot; `glob` refuses to match such
names with a `*` pattern. -/
def startsWithDot : Str → Bool
  | '.' :: _ => true
  | _ => false

/-- The character-class suffix `.[jJ][sS][oO][nN]` of the first glob
pattern (source line 16), tested against a five-character string. -/
def isJsonExt : Str → Bool
  | ['.', c1, c2, c3, c4] =>
    (c1 == 'j' || c1 == 'J') && (c2 == 's' || c2 == 'S') &&
      (c3 == 'o' || c3 == 'O') && (c4 == 'n' || c4 == 'N')
  | _ => false

/-- The character-class suffix `.[yY][aA][mM][lL]` of the second glob
pattern (source line 26). -/
def isYamlExt : Str → Bool
  | ['.', c1, c2, c3, c4] =>
    (c1 == 'y' || c1 == 'Y') && (c2 == 'a' || c2 == 'A') &&
      (c3 == 'm' || c3 == 'M') && (c4 == 'l' || c4 == 'L')
  | _ => false

/-- Whether a path matches `glob.glob("data/*.[jJ][sS][oO][nN]")`: it
lies directly inside `data/` (the `*` never matches `/`), its base name
does not start with a dot, and it carries the case-insensitive `.json`
suffix. -/
def globDataJson (p : Str) : Bool :=
  "data/".toList.isPrefixOf p &&
    (!((p.drop 5).contains '/') && !startsWithDot (p.drop 5) &&
      isJsonExt ((p.drop 5).drop ((p.drop 5).length - 5)))

/-- Whether a path matches `glob.glob("data/*.[yY][aA][mM][lL]")`. -/
def globDataYaml (p : Str) : Bool :=
  "data/".toList.isPrefixOf p &&
    (!((p.drop 5).contains '/') && !startsWithDot (p.drop 5) &&
      isYamlExt ((p.drop 5).drop ((p.drop 5).length - 5)))

/-- Python `dict.update`: every pair of `m` is written into `c` in file
order, so within one file a later pair with the same key wins. -/
def dictUpdate {α : Type} (c : Ctx α) (m : FileMap α) : Ctx α :=
  m.foldl (fun acc kv => fun k => if k = kv.1 then some kv.2 else acc k) c

/-- One `for`-loop of `load_data` (source lines 16-23 and 26-33): each
file either merges its mapping into the accumulator and logs a progress
line, or - when parsing failed - leaves the accumulator unchanged and
logs the error with the offending path and cause. -/
def loadPass {α : Type} (st : Ctx α × List LogEntry) (files : List (DataFile α)) :
    Ctx α × List LogEntry :=
  files.foldl
    (fun st f =>
      match f.parsed with
      | .ok m => (dictUpdate st.1 m, st.2 ++ [LogEntry.loaded f.path])
      | .error e => (st.1, st.2 ++ [LogEntry.loadError f.path e]))
    st

/-- The whole of `load_data` (source lines 11-35): starting from the
empty dict, first the JSON loop over the files matching the first glob,
then the YAML loop over the files matching the second glob, both in
enumeration order. -/
def load_data_full {α : Type} (files : List (DataFile α)) : Ctx α × List LogEntry :=
  loadPass (loadPass ((fun _ => none), []) (files.filter (fun f => globDataJson f.path)))
    (files.filter (fun f => globDataYaml f.path))

/-- The dictionary returned by `load_data`. -/
def load_data {α : Type} (files : List (DataFile α)) : Ctx α :=
  (load_data_full files).1

/-- The progress lines printed by `load_data`, in order. -/
def load_log {α : Type} (files : List (DataFile α)) : List LogEntry :=
  (load_data_full files).2

/-! Characterisation vocabulary used by the theorem statements. -/

/-- Lookup in one file's mapping, last pair winning (dict semantics). -/
def lookupFile {α : Type} (m : FileMap α) (k : Str) : Option α :=
  match m with
  | [] => none
  | p :: rest => (lookupFile rest k) <|> (if k = p.1 then some p.2 else none)

/-- The successfully parsed content of a file, `none` when it failed. -/
def content {α : Type} (f : DataFile α) : Option (FileMap α) :=
  f.parsed.toOption

/-- The log line one file produces. -/
def fileLog {α : Type} (f : DataFile α) : LogEntry :=
  match f.parsed with
  | .ok _ => LogEntry.loaded f.path
  | .error e => LogEntry.loadError f.path e

/-- Last-writer-wins lookup over a processing sequence of (possibly
failed) file contents: the value of `k` in the latest file that defines
it, skipping failed files. -/
def lastWins {α : Type} (l : List (Option (FileMap α))) (k : Str) : Option α :=
  match l with
  | [] => none
  | m? :: rest => (lastWins rest k) <|> (m?.bind (fun m => lookupFile m k))

/-- The contents of the JSON-matching files, in enumeration order. -/
def jsonContents {α : Type} (files : List (DataFile α)) : List (Option (FileMap α)) :=
  (files.filter (fun f => globDataJson f.path)).map content

/-- The contents of the YAML-matching files, in enumeration order. -/
def yamlContents {α : Type} (files : List (DataFile α)) : List (Option (FileMap α)) :=
  (files.filter (fun f => globDataYaml f.path)).map content

/-- The order in which `load_data` actually processes file contents:
every JSON file (in enumeration order) before every YAML file (in
enumeration order). -/
def processedContents {α : Type} (files : List (DataFile α)) : List (Option (FileMap α)) :=
  jsonContents files ++ yamlContents files

/-! Basic `Option.orElse` helpers. -/

theorem orElse_none_right {α : Type} (a : Option α) : (a <|> none) = a := by
  cases a <;> rfl

theorem orElse_assoc {α : Type} (a b c : Option α) :
    ((a <|> b) <|> c) = (a <|> (b <|> c)) := by
  cases a <;> rfl

theorem orElse_eq_none_iff {α : Type} (a b : Option α) :
    (a <|> b) = none ↔ a = none ∧ b = none := by
  cases a <;> simp [Option.orElse]

/-! The fold/characterisation bridge. -/

theorem dictUpdate_lookup {α : Type} (m : FileMap α) (c : Ctx α) (k : Str) :
    dictUpdate c m k = (lookupFile m k <|> c k) := by
  induction m generalizing c with
  | nil => rfl
  | cons p rest ih =>
    show dictUpdate (fun k => if k = p.1 then some p.2 else c k) rest k = _
    rw [ih]
    rw [lookupFile, orElse_assoc]
    by_cases h : k = p.1 <;> simp [h]

theorem loadPass_fst {α : Type} (l : List (DataFile α)) (st : Ctx α × List LogEntry) (k : Str) :
    (loadPass st l).1 k = (lastWins (l.map content) k <|> st.1 k) := by
  induction l generalizing st with
  | nil => rfl
  | cons f rest ih =>
    show (loadPass _ rest).1 k = _
    rw [ih]
    rw [List.map_cons, lastWins, orElse_assoc]
    cases hp : f.parsed with
    | ok m =>
      simp only [hp]
      rw [dictUpdate_lookup]
      simp [content, hp, Except.toOption]
    | error e =>
      simp [hp, content, Except.toOption]

theorem loadPass_snd {α : Type} (l : List (DataFile α)) (st : Ctx α × List LogEntry) :
    (loadPass st l).2 = st.2 ++ l.map fileLog := by
  induction l generalizing st with
  | nil => simp [loadPass]
  | cons f rest ih =>
    show (loadPass _ rest).2 = _
    rw [ih]
    cases hp : f.parsed with
    | ok m => simp [hp, fileLog, List.map_cons]
    | error e => simp [hp, fileLog, List.map_cons]

theorem lastWins_append {α : Type} (a b : List (Option (FileMap α))) (k : Str) :
    lastWins (a ++ b) k = (lastWins b k <|> lastWins a k) := by
  induction a with
  | nil => simp [lastWins, orElse_none_right]
  | cons m rest ih =>
    rw [List.cons_append, lastWins, ih, lastWins, orElse_assoc]

/-- The central characterisation of `load_data`: the merged value of a
key is the value in the latest file - in actual processing order, JSON
files before YAML files - that defines it. -/
theorem load_data_eq {α : Type} (files : List (DataFile α)) (k : Str) :
    load_data files k = lastWins (processedContents files) k := by
  show (loadPass (loadPass _ _) _).1 k = _
  rw [loadPass_fst, loadPass_fst]
  rw [processedContents, lastWins_append]
  show _ = (lastWins (yamlContents files) k <|> lastWins (jsonContents files) k)
  rw [jsonContents, yamlContents]
  cases h : lastWins ((files.filter (fun f => globDataYaml f.path)).map content) k <;>
    simp [orElse_none_right]

theorem load_log_eq {α : Type} (files : List (DataFile α)) :
    load_log files =
      (files.filter (fun f => globDataJson f.path)).map fileLog ++
        (files.filter (fun f => globDataYaml f.path)).map fileLog := by
  show (loadPass (loadPass _ _) _).2 = _
  rw [loadPass_snd, loadPass_snd]
  simp

/-! Disjointness of file key sets, and order-independence machinery. -/

/-- Whether a (possibly failed) file content defines the key `k`. -/
def definesB {α : Type} (m? : Option (FileMap α)) (k : Str) : Bool :=
  (m?.bind (fun m => lookupFile m k)).isSome

/-- The keys of a (possibly failed) file content. -/
def fileKeys {α : Type} : Option (FileMap α) → List Str
  | none => []
  | some m => m.map (fun p => p.1)

/-- Decidable disjointness of two file contents' key sets. -/
def disjB {α : Type} (a b : Option (FileMap α)) : Bool :=
  (fileKeys a).all (fun k => !definesB b k)

/-- Decidable pairwise disjointness of a sequence of file contents. -/
def pwDisjB {α : Type} : List (Option (FileMap α)) → Bool
  | [] => true
  | m :: rest => rest.all (fun b => disjB m b) && pwDisjB rest

theorem orElse_isSome {α : Type} (a b : Option α) :
    (a <|> b).isSome = (a.isSome || b.isSome) := by
  cases a <;> cases b <;> rfl

theorem lookupFile_isSome_iff_mem {α : Type} (m : FileMap α) (k : Str) :
    (lookupFile m k).isSome = true ↔ k ∈ m.map (fun p => p.1) := by
  induction m with
  | nil => simp [lookupFile]
  | cons p rest ih =>
    rw [lookupFile, orElse_isSome, List.map_cons]
    by_cases hk : k = p.1
    · subst hk
      rw [if_pos rfl]
      simp only [Option.isSome_some, Bool.or_true]
      exact iff_of_true trivial (List.mem_cons_self _ _)
    · simp only [if_neg hk, Option.isSome_none, Bool.or_false, List.mem_cons]
      rw [ih]
      exact (or_iff_right hk).symm

theorem definesB_some_iff {α : Type} (m : FileMap α) (k : Str) :
    definesB (some m) k = true ↔ k ∈ m.map (fun p => p.1) :=
  lookupFile_isSome_iff_mem m k

theorem disjB_spec {α : Type} (a b : Option (FileMap α)) :
    disjB a b = true ↔ ∀ k, ¬(definesB a k = true ∧ definesB b k = true) := by
  cases a with
  | none =>
    constructor
    · intro _ k h
      have hfalse : definesB (none : Option (FileMap α)) k = false := rfl
      rw [hfalse] at h
      exact Bool.false_ne_true h.1
    · intro _
      rfl
  | some m =>
    rw [disjB, List.all_eq_true]
    constructor
    · intro h k hk
      have hmem : k ∈ m.map (fun p => p.1) := (definesB_some_iff m k).mp hk.1
      have hb := h k hmem
      rw [hk.2] at hb
      exact absurd hb (by decide)
    · intro h k hk
      have hdef : definesB (some m) k = true := (definesB_some_iff m k).mpr hk
      cases hb : definesB b k
      · rfl
      · exact absurd (And.intro hdef hb) (h k)

theorem disjB_symm {α : Type} (a b : Option (FileMap α)) (h : disjB a b = true) :
    disjB b a = true := by
  rw [disjB_spec] at h ⊢
  intro k hk
  exact h k ⟨hk.2, hk.1⟩

theorem pwDisjB_iff_pairwise {α : Type} (l : List (Option (FileMap α))) :
    pwDisjB l = true ↔ l.Pairwise (fun a b => disjB a b = true) := by
  induction l with
  | nil => simp [pwDisjB]
  | cons m rest ih =>
    rw [pwDisjB, Bool.and_eq_true, List.pairwise_cons, ih, List.all_eq_true]

theorem pwDisjB_perm {α : Type} {l l' : List (Option (FileMap α))}
    (hp : l.Perm l') (h : pwDisjB l = true) : pwDisjB l' = true := by
  rw [pwDisjB_iff_pairwise] at h ⊢
  exact (hp.pairwise_iff (fun {a b} hab => disjB_symm a b hab)).mp h

theorem lastWins_eq_none_iff {α : Type} (l : List (Option (FileMap α))) (k : Str) :
    lastWins l k = none ↔ ∀ m? ∈ l, m?.bind (fun m => lookupFile m k) = none := by
  induction l with
  | nil => simp [lastWins]
  | cons m rest ih =>
    rw [lastWins, orElse_eq_none_iff, ih]
    constructor
    · rintro ⟨h1, h2⟩ m? hm
      rcases List.mem_cons.mp hm with rfl | hm'
      · exact h2
      · exact h1 m? hm'
    · intro h
      exact ⟨fun m? hm => h m? (List.mem_cons_of_mem _ hm), h m (List.mem_cons_self _ _)⟩

theorem lastWins_eq_some_iff {α : Type} {l : List (Option (FileMap α))}
    (hd : l.Pairwise (fun a b => disjB a b = true)) (k : Str) (v : α) :
    lastWins l k = some v ↔ ∃ m? ∈ l, m?.bind (fun m => lookupFile m k) = some v := by
  induction l with
  | nil => simp [lastWins]
  | cons m rest ih =>
    rcases List.pairwise_cons.mp hd with ⟨hm, hrest⟩
    rw [lastWins]
    constructor
    · intro h
      cases hr : lastWins rest k with
      | some w =>
        rw [hr] at h
        have hw : some w = some v := h
        rcases (ih hrest).mp (hr.trans (congrArg some (Option.some.inj hw))) with ⟨m', hm', hv⟩
        exact ⟨m', List.mem_cons_of_mem _ hm', hv⟩
      | none =>
        rw [hr] at h
        exact ⟨m, List.mem_cons_self _ _, h⟩
    · rintro ⟨m', hm', hv⟩
      rcases List.mem_cons.mp hm' with rfl | hmem
      · have hnone : lastWins rest k = none := by
          rw [lastWins_eq_none_iff]
          intro b hb
          cases hbk : b.bind (fun m => lookupFile m k) with
          | none => rfl
          | some w =>
            have hdefm : definesB m' k = true := by
              rw [definesB, hv]; rfl
            have hdefb : definesB b k = true := by
              rw [definesB, hbk]; rfl
            exact absurd ⟨hdefm, hdefb⟩ ((disjB_spec m' b).mp (hm b hb) k)
        rw [hnone, hv]
        rfl
      · have := (ih hrest).mpr ⟨m', hmem, hv⟩
        rw [this]
        rfl

theorem lastWins_perm {α : Type} {l l' : List (Option (FileMap α))}
    (hd : pwDisjB l = true) (hp : l.Perm l') (k : Str) :
    lastWins l k = lastWins l' k := by
  have hd' : pwDisjB l' = true := pwDisjB_perm hp hd
  cases h : lastWins l k with
  | some v =>
    rcases (lastWins_eq_some_iff ((pwDisjB_iff_pairwise l).mp hd) k v).mp h with ⟨m', hm', hv⟩
    exact ((lastWins_eq_some_iff ((pwDisjB_iff_pairwise l').mp hd') k v).mpr
      ⟨m', hp.mem_iff.mp hm', hv⟩).symm
  | none =>
    have := (lastWins_eq_none_iff l k).mp h
    exact ((lastWins_eq_none_iff l' k).mpr
      (fun m? hm => this m? (hp.mem_iff.mpr hm))).symm

/-! Helpers about skipped files. -/

theorem filter_skip {α : Type} (q : DataFile α → Bool) {f : DataFile α}
    (hq : q f = false) (l₁ l₂ : List (DataFile α)) :
    (l₁ ++ f :: l₂).filter q = (l₁ ++ l₂).filter q := by
  simp [List.filter_append, List.filter_cons, hq]

theorem lastWins_middle_none {α : Type} (a b : List (Option (FileMap α))) (k : Str) :
    lastWins (a ++ none :: b) k = lastWins (a ++ b) k := by
  rw [lastWins_append, lastWins_append, lastWins]
  have hb : (none : Option (FileMap α)).bind (fun m => lookupFile m k) = none := rfl
  rw [hb, orElse_none_right]

theorem lastWins_filter_skip_error {α : Type} (q : DataFile α → Bool) (f : DataFile α)
    (hf : content f = none) (l₁ l₂ : List (DataFile α)) (k : Str) :
    lastWins (((l₁ ++ f :: l₂).filter q).map content) k
      = lastWins (((l₁ ++ l₂).filter q).map content) k := by
  by_cases hq : q f = true
  · rw [List.filter_append, List.filter_cons, if_pos hq, List.map_append, List.map_cons, hf,
      lastWins_middle_none, ← List.map_append, ← List.filter_append]
  · rw [filter_skip q (Bool.eq_false_iff.mpr hq) l₁ l₂]

/-! Claim C4. -/

/-- Modelled from the spec: the merge the claim describes, last-writer-wins
over the matching data files in raw file-system enumeration order (JSON and
YAML files interleaved exactly as enumerated).  The source instead runs two
separate loops, all JSON files before all YAML files. -/
def specMergeEnumOrder {α : Type} (files : List (DataFile α)) : Ctx α :=
  fun k =>
    lastWins ((files.filter (fun f => globDataJson f.path || globDataYaml f.path)).map content) k

/-- Enumeration-order data directory used to refute claim C4: the YAML file
is enumerated first, the JSON file second, and both define key `k`. -/
def c4Files : List (DataFile Nat) :=
  [⟨"data/b.yaml".toList, Except.ok [("k".toList, 2)]⟩,
   ⟨"data/a.json".toList, Except.ok [("k".toList, 1)]⟩]

/-- Claim C4, counterexample: with enumeration order `[b.yaml, a.json]` and a
key defined in both files, the claim ("the merged value is the one from the
file processed later, and the processing order is file-system enumeration
order") predicts the JSON value `1`, but `load_data` merges all JSON files
before all YAML files and returns the YAML value `2`. -/
theorem claim_C4_cex :
    load_data c4Files "k".toList = some 2 ∧
    specMergeEnumOrder c4Files "k".toList = some 1 ∧
    load_data c4Files "k".toList ≠ specMergeEnumOrder c4Files "k".toList := by
  decide

/-- Claim C4, amended: the merge is last-writer-wins, but the processing
order is not raw enumeration order - it is all JSON files in enumeration
order followed by all YAML files in enumeration order
(`processedContents`); the merged value of every key is the value in the
latest file of that sequence that defines it. -/
theorem claim_C4_thm {α : Type} (files : List (DataFile α)) (k : Str) :
    load_data files k = lastWins (processedContents files) k :=
  load_data_eq files k

/-! Claim C6. -/

/-- Claim C6: a data file that fails to parse is caught and logged with its
path and cause, the remaining files still merge (removing the failed file
changes nothing in the returned mapping), and when no file matches the two
glob patterns (in particular when the directory is absent, i.e. the
enumeration is empty) the returned mapping is empty. -/
theorem claim_C6_thm {α : Type} :
    (∀ (l₁ l₂ : List (DataFile α)) (p e k : Str),
        (globDataJson p || globDataYaml p) = true →
          load_data (l₁ ++ ⟨p, Except.error e⟩ :: l₂) k = load_data (l₁ ++ l₂) k ∧
          LogEntry.loadError p e ∈ load_log (l₁ ++ ⟨p, Except.error e⟩ :: l₂)) ∧
    (∀ (files : List (DataFile α)) (k : Str),
        (∀ f ∈ files, globDataJson f.path = false ∧ globDataYaml f.path = false) →
          load_data files k = none) := by
  constructor
  · intro l₁ l₂ p e k hglob
    constructor
    · rw [load_data_eq, load_data_eq, processedContents, processedContents,
        jsonContents, jsonContents, yamlContents, yamlContents,
        lastWins_append, lastWins_append,
        lastWins_filter_skip_error _ ⟨p, Except.error e⟩ rfl,
        lastWins_filter_skip_error _ ⟨p, Except.error e⟩ rfl]
    · rw [load_log_eq]
      have hglob' : globDataJson p = true ∨ globDataYaml p = true := by simpa using hglob
      rcases hglob' with hj | hy
      · refine List.mem_append.mpr (Or.inl (List.mem_map.mpr ⟨⟨p, Except.error e⟩, ?_, rfl⟩))
        exact List.mem_filter.mpr ⟨List.mem_append.mpr (Or.inr (List.mem_cons_self _ _)), hj⟩
      · refine List.mem_append.mpr (Or.inr (List.mem_map.mpr ⟨⟨p, Except.error e⟩, ?_, rfl⟩))
        exact List.mem_filter.mpr ⟨List.mem_append.mpr (Or.inr (List.mem_cons_self _ _)), hy⟩
  · intro files k h
    rw [load_data_eq, processedContents, jsonContents, yamlContents,
      List.filter_eq_nil_iff.mpr (fun f hf => by simp [(h f hf).1]),
      List.filter_eq_nil_iff.mpr (fun f hf => by simp [(h f hf).2])]
    rfl

/-- A well-formed data file used by the C6 witness. -/
def c6good : DataFile Nat := ⟨"data/good.json".toList, Except.ok [("a".toList, 1)]⟩

/-- Claim C6, witness: a malformed `data/bad.json` next to a good file is
skipped and logged, and the good file still contributes its key. -/
theorem claim_C6_wit :
    (globDataJson "data/bad.json".toList || globDataYaml "data/bad.json".toList) = true ∧
    (load_data ([c6good] ++ (⟨"data/bad.json".toList,
          Except.error "Expecting value".toList⟩ : DataFile Nat) :: []) "a".toList
        = load_data ([c6good] ++ []) "a".toList ∧
      LogEntry.loadError "data/bad.json".toList "Expecting value".toList ∈
        load_log ([c6good] ++ (⟨"data/bad.json".toList,
          Except.error "Expecting value".toList⟩ : DataFile Nat) :: [])) :=
  ⟨by decide,
    claim_C6_thm.1 [c6good] [] "data/bad.json".toList "Expecting value".toList "a".toList
      (by decide)⟩

/-! Claim C7. -/

/-- Claim C7: when the processed file contents have pairwise disjoint key
sets, `load_data` returns their union (a key maps to `v` exactly when some
processed file maps it to `v`), and the result does not depend on the order
in which the files are enumerated and merged. -/
theorem claim_C7_thm {α : Type} (files files' : List (DataFile α))
    (hd : pwDisjB (processedContents files) = true) (hp : files.Perm files')
    (k : Str) (v : α) :
    (load_data files k = some v ↔
      ∃ m? ∈ processedContents files, m?.bind (fun m => lookupFile m k) = some v) ∧
    load_data files' k = load_data files k := by
  have hperm : (processedContents files).Perm (processedContents files') := by
    rw [processedContents, processedContents, jsonContents, jsonContents,
      yamlContents, yamlContents]
    exact ((hp.filter _).map _).append ((hp.filter _).map _)
  constructor
  · rw [load_data_eq]
    exact lastWins_eq_some_iff ((pwDisjB_iff_pairwise _).mp hd) k v
  · rw [load_data_eq, load_data_eq]
    exact (lastWins_perm hd hperm k).symm

/-- Data file with key `x`, used by the C7 witness. -/
def c7a : DataFile Nat := ⟨"data/a.json".toList, Except.ok [("x".toList, 1)]⟩

/-- Data file with key `y`, used by the C7 witness. -/
def c7b : DataFile Nat := ⟨"data/b.yaml".toList, Except.ok [("y".toList, 2)]⟩

/-- Claim C7, witness: two files with disjoint keys merge to the same value
for `x` in either enumeration order. -/
theorem claim_C7_wit :
    pwDisjB (processedContents [c7a, c7b]) = true ∧
    load_data [c7b, c7a] "x".toList = load_data [c7a, c7b] "x".toList :=
  ⟨by decide,
    (claim_C7_thm [c7a, c7b] [c7b, c7a] (by decide) (List.Perm.swap c7b c7a [])
      "x".toList 1).2⟩

/-! Claim C9. -/

/-- Claim C9: both glob patterns are non-recursive (`*` never matches `/`),
so a file lying in a subdirectory of `data/` matches neither pattern, is
never loaded, contributes no key to the context, and produces no log
line - whatever its contents. -/
theorem claim_C9_thm {α : Type} (p : Str)
    (h₁ : "data/".toList.isPrefixOf p = true)
    (h₂ : (p.drop 5).contains '/' = true) :
    globDataJson p = false ∧ globDataYaml p = false ∧
      ∀ (l₁ l₂ : List (DataFile α)) (parsed : Except Str (FileMap α)) (k : Str),
        load_data (l₁ ++ ⟨p, parsed⟩ :: l₂) k = load_data (l₁ ++ l₂) k ∧
        load_log (l₁ ++ ⟨p, parsed⟩ :: l₂) = load_log (l₁ ++ l₂) := by
  have hj : globDataJson p = false := by rw [globDataJson, h₂]; simp
  have hy : globDataYaml p = false := by rw [globDataYaml, h₂]; simp
  refine ⟨hj, hy, fun l₁ l₂ parsed k => ?_⟩
  have hfull : load_data_full (l₁ ++ ⟨p, parsed⟩ :: l₂) = load_data_full (α := α) (l₁ ++ l₂) := by
    rw [load_data_full, load_data_full,
      filter_skip (fun f => globDataJson f.path) hj l₁ l₂,
      filter_skip (fun f => globDataYaml f.path) hy l₁ l₂]
  exact ⟨congrFun (congrArg Prod.fst hfull) k, congrArg Prod.snd hfull⟩

/-- Claim C9, witness: `data/sub/x.json` matches neither glob pattern. -/
theorem claim_C9_wit :
    ("data/".toList.isPrefixOf "data/sub/x.json".toList = true ∧
      ("data/sub/x.json".toList.drop 5).contains '/' = true) ∧
    globDataJson "data/sub/x.json".toList = false :=
  ⟨⟨by decide, by decide⟩,
    (claim_C9_thm (α := Nat) "data/sub/x.json".toList (by decide) (by decide)).1⟩

/-! Claim C10. -/

/-- Claim C10: all JSON files merge before any YAML file, so whenever some
YAML file defines a key, the merged value comes from the YAML pass - the
JSON files (and hence any key collision between a JSON and a YAML file)
cannot influence it, regardless of enumeration order of the JSON files. -/
theorem claim_C10_thm {α : Type} (files : List (DataFile α)) (k : Str)
    (hj : (lastWins (jsonContents files) k).isSome = true)
    (hy : (lastWins (yamlContents files) k).isSome = true) :
    load_data files k = lastWins (yamlContents files) k ∧
    ∀ files₂ : List (DataFile α), yamlContents files₂ = yamlContents files →
      load_data files₂ k = load_data files k := by
  have hmain : ∀ fs : List (DataFile α), yamlContents fs = yamlContents files →
      load_data fs k = lastWins (yamlContents files) k := by
    intro fs hfs
    rw [load_data_eq, processedContents, lastWins_append, hfs]
    rcases Option.isSome_iff_exists.mp hy with ⟨v, hv⟩
    rw [hv]
    rfl
  exact ⟨hmain files rfl, fun fs hfs => (hmain fs hfs).trans (hmain files rfl).symm⟩

/-- JSON data file defining key `k`, used by the C10 witness. -/
def c10json : DataFile Nat := ⟨"data/a.json".toList, Except.ok [("k".toList, 1)]⟩

/-- YAML data file defining key `k`, used by the C10 witness. -/
def c10yaml : DataFile Nat := ⟨"data/b.yaml".toList, Except.ok [("k".toList, 2)]⟩

/-- Claim C10, witness: key `k` defined in a JSON and a YAML file merges to
the YAML pass value even though the YAML file is enumerated second. -/
theorem claim_C10_wit :
    (lastWins (jsonContents [c10json, c10yaml]) "k".toList).isSome = true ∧
    (lastWins (yamlContents [c10json, c10yaml]) "k".toList).isSome = true ∧
    load_data [c10json, c10yaml] "k".toList
      = lastWins (yamlContents [c10json, c10yaml]) "k".toList :=
  ⟨by decide, by decide, (claim_C10_thm _ _ (by decide) (by decide)).1⟩

/-!
The rendering pipeline.  The template tree is an input: the list of file
paths (all starting with `templates/`) that `glob('templates/**/*.*',
recursive=True)` respectively `glob('templates/**/*.html', recursive=True)`
would enumerate.  (The `*.*` component requires a dot in the base name,
which every `.j2`/`.jinja`/`.html` file has; `glob`'s refusal to match
base names starting with a dot is not modelled, no claim depends on it.)
The Jinja2 engine is opaque: rendering a template always yields some
output text, so the observable behaviour of one run is the sequence of
side effects - the data load, the asset copies and the rendered output
files - recorded as an `Effect` list. -/

/-- One observable side effect of a pipeline run. -/
inductive Effect
  | dataLoaded
  | assetCopied (src dst : Str)
  | renderedFile (src dst : Str)
deriving DecidableEq

/-- Whether an effect is an asset copy. -/
def Effect.isAssetCopied : Effect → Bool
  | .assetCopied _ _ => true
  | _ => false

/-- Whether an effect is a rendered template write. -/
def Effect.isRenderedFile : Effect → Bool
  | .renderedFile _ _ => true
  | _ => false

/-- Occurrence test: does `pat` start at position `i` of `s`? -/
def occursAtB (pat s : Str) (i : Nat) : Bool :=
  pat.isPrefixOf (s.drop i)

/-- `pat` is nonempty and occurs nowhere in `s`. -/
def noOccB (pat s : Str) : Bool :=
  !pat.isEmpty && (List.range (s.length + 1)).all (fun i => !occursAtB pat s i)

/-- `pat` occurs at some position strictly before `j` in `s`. -/
def occursBeforeB (pat s : Str) (j : Nat) : Bool :=
  (List.range j).any (fun i => occursAtB pat s i)

/-- Python `str.replace(pat, rep)` on character lists: every
non-overlapping occurrence of `pat`, scanned left to right, is replaced by
`rep`.  The fuel argument (one unit per consumed character, initially the
length of the string) only makes the recursion structural; it is never
exhausted. -/
def replaceAllAux (pat rep : Str) : Nat → Str → Str
  | _, [] => []
  | 0, c :: rest => c :: rest
  | n + 1, c :: rest =>
    if pat.isPrefixOf (c :: rest) && !pat.isEmpty then
      rep ++ replaceAllAux pat rep n (rest.drop (pat.length - 1))
    else
      c :: replaceAllAux pat rep n rest

/-- Python `s.replace(pat, rep)` for a nonempty `pat`. -/
def replaceAll (pat rep s : Str) : Str :=
  replaceAllAux pat rep s.length s

/-- `os.path.relpath(p, 'templates')` for the paths this script passes it:
every enumerated path starts with `templates/`, and stripping that prefix
is exactly what `relpath` returns for them. -/
def relpathFromTemplates (p : Str) : Str :=
  if "templates/".toList.isPrefixOf p then p.drop 10 else p

/-- The chained global replacements of source line 77:
`.replace('.html.j2', '.html').replace('.j2', '.html')`
`.replace('.html.jinja', '.html').replace('.jinja', '.html')`,
applied in that order. -/
def chainReplace (s : Str) : Str :=
  replaceAll ".jinja".toList ".html".toList
    (replaceAll ".html.jinja".toList ".html".toList
      (replaceAll ".j2".toList ".html".toList
        (replaceAll ".html.j2".toList ".html".toList s)))

/-- The output path of a rendered template (source line 77):
`os.path.join('site', relpath)` with the suffix replacements applied. -/
def outputName (p : Str) : Str :=
  "site/".toList ++ chainReplace (relpathFromTemplates p)

/-- The destination of a copied asset (source line 44):
`os.path.join('site', os.path.relpath(html_file, 'templates'))`. -/
def siteDest (p : Str) : Str :=
  "site/".toList ++ relpathFromTemplates p

/-- Substring test, source line 71's `'partials' not in f` (Python `in` on
strings is a substring test, not a path-segment test). -/
def isInfixB (pat : Str) : Str → Bool
  | [] => pat.isEmpty
  | c :: rest => pat.isPrefixOf (c :: rest) || isInfixB pat rest

/-- `copy_html_files` (source lines 37-54): every `.html` file anywhere
under the template tree is copied to the mirrored path under `site/`.
Directory creation and deletion of a pre-existing destination are not
observable in this model. -/
def copy_html_files (tfiles : List Str) : List Effect :=
  (tfiles.filter (fun f => ".html".toList.isSuffixOf f)).map
    (fun f => Effect.assetCopied f (siteDest f))

/-- The template selection of source line 71: keep a file iff its name
ends in `.j2` or `.jinja` and its full path does not contain the substring
`partials`. -/
def templateFilter (f : Str) : Bool :=
  (".j2".toList.isSuffixOf f || ".jinja".toList.isSuffixOf f) &&
    !isInfixB "partials".toList f

/-- The rendering loop of source lines 71-89: each selected template is
rendered (the opaque engine always yields output) and written to its
output path. -/
def renderPhase (tfiles : List Str) : List Effect :=
  (tfiles.filter templateFilter).map (fun f => Effect.renderedFile f (outputName f))

/-- `render_all_templates` (source lines 56-89).  A trigger equal to the
Python empty string is falsy and is treated like no trigger; a nonempty
trigger ending in `.html` diverts the run to `copy_html_files` and
returns; anything else falls through to the rendering loop.  The `data`
argument is threaded exactly as in the source, where the rendering engine
consumes it opaquely. -/
def render_all_templates {α : Type} (tfiles : List Str) (data : Ctx α)
    (trigger : Option Str) : List Effect :=
  match trigger with
  | some t =>
    if t.isEmpty then renderPhase tfiles
    else if ".html".toList.isSuffixOf t then copy_html_files tfiles
    else renderPhase tfiles
  | none => renderPhase tfiles

/-- `render_all` (source lines 91-95): build the environment (opaque),
load the data - unconditionally, whatever the trigger - and run
`render_all_templates` on the result. -/
def render_all {α : Type} (tfiles : List Str) (dfiles : List (DataFile α))
    (trigger : Option Str) : List Effect :=
  Effect.dataLoaded :: render_all_templates tfiles (load_data dfiles) trigger

/-! String-occurrence lemmas for the replacement chain. -/

theorem occursAtB_cons_succ (pat : Str) (c : Char) (rest : Str) (i : Nat) :
    occursAtB pat (c :: rest) (i + 1) = occursAtB pat rest i := by
  rw [occursAtB, occursAtB, List.drop_succ_cons]

theorem noOccB_all (pat s : Str) (h : noOccB pat s = true) :
    ∀ i, occursAtB pat s i = false := by
  rw [noOccB, Bool.and_eq_true] at h
  obtain ⟨hne, hall⟩ := h
  intro i
  by_cases hi : i ≤ s.length
  · have hin := List.all_eq_true.mp hall i (List.mem_range.mpr (Nat.lt_succ_of_le hi))
    cases hb : occursAtB pat s i
    · rfl
    · rw [hb] at hin
      exact absurd hin (by decide)
  · rw [occursAtB, List.drop_eq_nil_of_le (by omega)]
    cases pat with
    | nil => simp at hne
    | cons a as => rfl

theorem occursBeforeB_all (pat s : Str) (j : Nat) (h : occursBeforeB pat s j = false) :
    ∀ i, i < j → occursAtB pat s i = false := by
  intro i hi
  cases hb : occursAtB pat s i
  · rfl
  · exfalso
    have htrue : occursBeforeB pat s j = true :=
      List.any_eq_true.mpr ⟨i, List.mem_range.mpr hi, hb⟩
    rw [h] at htrue
    exact Bool.false_ne_true htrue

theorem replaceAllAux_noOcc (pat rep : Str) :
    ∀ (n : Nat) (s : Str), (∀ i, occursAtB pat s i = false) →
      replaceAllAux pat rep n s = s := by
  intro n
  induction n with
  | zero =>
    intro s h
    cases s <;> rfl
  | succ n ih =>
    intro s h
    cases s with
    | nil => rfl
    | cons c rest =>
      have h0 : pat.isPrefixOf (c :: rest) = false := by
        have h0' := h 0
        rwa [occursAtB, List.drop_zero] at h0'
      have hrest : ∀ i, occursAtB pat rest i = false := fun i => by
        have hi := h (i + 1)
        rwa [occursAtB_cons_succ] at hi
      simp only [replaceAllAux, h0, Bool.false_and, Bool.false_eq_true, if_false]
      rw [ih rest hrest]

theorem isPrefixOf_self (l : Str) : l.isPrefixOf l = true := by
  induction l with
  | nil => rfl
  | cons a as ih => simp [List.isPrefixOf, ih]

theorem replaceAllAux_tail (pat rep : Str) (hne : pat ≠ []) :
    ∀ (t : Str) (n : Nat), (∀ i, i < t.length → occursAtB pat (t ++ pat) i = false) →
      (t ++ pat).length ≤ n → replaceAllAux pat rep n (t ++ pat) = t ++ rep := by
  intro t
  induction t with
  | nil =>
    intro n h hn
    simp only [List.nil_append] at hn ⊢
    cases pat with
    | nil => exact absurd rfl hne
    | cons a as =>
      cases n with
      | zero => simp at hn
      | succ n =>
        have hpre : (a :: as).isPrefixOf (a :: as) = true := isPrefixOf_self (a :: as)
        simp only [replaceAllAux, hpre, List.isEmpty_cons, Bool.not_false, Bool.and_true,
          if_true]
        have hlen : (a :: as).length - 1 = as.length := rfl
        rw [hlen, List.drop_length]
        have haux : replaceAllAux (a :: as) rep n [] = [] := by
          cases n <;> rfl
        rw [haux, List.append_nil]
  | cons c t' ih =>
    intro n h hn
    cases n with
    | zero => simp [List.cons_append] at hn
    | succ n =>
      have h0 : pat.isPrefixOf (c :: (t' ++ pat)) = false := by
        have h0' := h 0 (Nat.succ_pos _)
        rwa [occursAtB, List.cons_append, List.drop_zero] at h0'
      have h' : ∀ i, i < t'.length → occursAtB pat (t' ++ pat) i = false := fun i hi => by
        have hi' := h (i + 1) (Nat.succ_lt_succ hi)
        rwa [List.cons_append, occursAtB_cons_succ] at hi'
      have hn' : (t' ++ pat).length ≤ n := by
        simp only [List.cons_append, List.length_cons] at hn
        omega
      show replaceAllAux pat rep (n + 1) (c :: (t' ++ pat)) = c :: (t' ++ rep)
      simp only [replaceAllAux, h0, Bool.false_and, Bool.false_eq_true, if_false]
      rw [ih n h' hn']

theorem replaceAll_noOcc {pat rep s : Str} (h : noOccB pat s = true) :
    replaceAll pat rep s = s :=
  replaceAllAux_noOcc pat rep s.length s (noOccB_all pat s h)

theorem replaceAll_tailOnly {pat rep : Str} (t : Str) (hne : pat ≠ [])
    (h : occursBeforeB pat (t ++ pat) t.length = false) :
    replaceAll pat rep (t ++ pat) = t ++ rep :=
  replaceAllAux_tail pat rep hne t (t ++ pat).length
    (occursBeforeB_all pat (t ++ pat) t.length h) (Nat.le_refl _)

/-! Prefix and substring helpers. -/

theorem isPrefixOf_eq_true_iff (l₁ l₂ : Str) :
    l₁.isPrefixOf l₂ = true ↔ ∃ r, l₁ ++ r = l₂ := by
  induction l₁ generalizing l₂ with
  | nil =>
    refine iff_of_true ?_ ⟨l₂, rfl⟩
    cases l₂ <;> rfl
  | cons a as ih =>
    cases l₂ with
    | nil =>
      constructor
      · intro h
        exact absurd h (by simp [List.isPrefixOf])
      · rintro ⟨r, hr⟩
        exact absurd hr (by simp)
    | cons b bs =>
      rw [List.isPrefixOf, Bool.and_eq_true, beq_iff_eq, ih]
      constructor
      · rintro ⟨rfl, r, rfl⟩
        exact ⟨r, rfl⟩
      · rintro ⟨r, hr⟩
        rw [List.cons_append] at hr
        injection hr with h1 h2
        exact ⟨h1, r, h2⟩

theorem isPrefixOf_self_append (l r : Str) : l.isPrefixOf (l ++ r) = true :=
  (isPrefixOf_eq_true_iff l (l ++ r)).mpr ⟨r, rfl⟩

theorem relpath_templates (r : Str) :
    relpathFromTemplates ("templates/".toList ++ r) = r := by
  rw [relpathFromTemplates, if_pos (isPrefixOf_self_append "templates/".toList r)]
  have h10 : ("templates/".toList : Str).length = 10 := rfl
  rw [← h10, List.drop_left]

theorem isInfixB_self_append (pat r : Str) : isInfixB pat (pat ++ r) = true := by
  cases pat with
  | nil =>
    cases r with
    | nil => rfl
    | cons c rest =>
      rw [List.nil_append, isInfixB]
      simp [List.isPrefixOf]
  | cons a as =>
    rw [List.cons_append, isInfixB]
    have hpre := isPrefixOf_self_append (a :: as) r
    rw [List.cons_append] at hpre
    rw [hpre, Bool.true_or]

theorem isInfixB_append_right (pat a l : Str) (h : isInfixB pat l = true) :
    isInfixB pat (a ++ l) = true := by
  induction a with
  | nil => exact h
  | cons c a' ih =>
    rw [List.cons_append, isInfixB, ih, Bool.or_true]

/-! Claim C1. -/

/-- Claim C1, counterexample: a no-trigger run over a tree holding the
plain asset `templates/b.html` produces no asset-copy effect at all - the
claim's "copies all .html asset files" fails on the very first build. -/
theorem claim_C1_cex :
    ".html".toList.isSuffixOf "templates/b.html".toList = true ∧
    render_all ["templates/b.html".toList] ([] : List (DataFile Nat)) none
      = [Effect.dataLoaded] ∧
    (render_all ["templates/b.html".toList] ([] : List (DataFile Nat)) none).all
      (fun e => !e.isAssetCopied) = true := by
  decide

/-- Claim C1, amended: a run with no trigger path loads the data and
renders every non-partial template, but performs no asset copy - plain
`.html` files are not copied on the initial build. -/
theorem claim_C1_thm {α : Type} (tfiles : List Str) (dfiles : List (DataFile α)) :
    render_all tfiles dfiles none = Effect.dataLoaded :: renderPhase tfiles ∧
    (∀ f, f ∈ tfiles → templateFilter f = true →
      Effect.renderedFile f (outputName f) ∈ render_all tfiles dfiles none) ∧
    (render_all tfiles dfiles none).all (fun e => !e.isAssetCopied) = true := by
  have h1 : render_all tfiles dfiles none = Effect.dataLoaded :: renderPhase tfiles := rfl
  refine ⟨h1, ?_, ?_⟩
  · intro f hf hfil
    rw [h1, renderPhase]
    exact List.mem_cons_of_mem _ (List.mem_map.mpr ⟨f, List.mem_filter.mpr ⟨hf, hfil⟩, rfl⟩)
  · rw [h1, renderPhase, List.all_eq_true]
    intro e he
    rcases List.mem_cons.mp he with rfl | he'
    · rfl
    · rcases List.mem_map.mp he' with ⟨g, _, rfl⟩
      rfl

/-- Claim C1, witness: the no-trigger run renders a non-partial template. -/
theorem claim_C1_wit :
    templateFilter "templates/x/a.html.j2".toList = true ∧
    Effect.renderedFile "templates/x/a.html.j2".toList
        (outputName "templates/x/a.html.j2".toList)
      ∈ render_all ["templates/x/a.html.j2".toList] ([] : List (DataFile Nat)) none :=
  ⟨by decide,
    (claim_C1_thm ["templates/x/a.html.j2".toList] []).2.1 _ (by decide) (by decide)⟩

/-! Claim C2. -/

/-- Claim C2, counterexample: a run triggered by `templates/foo.html` does
reload the data - `render_all` calls `load_data()` unconditionally before
the `.html` fast path is examined - refuting the claim's "without
reloading the data". -/
theorem claim_C2_cex :
    Effect.dataLoaded ∈ render_all ["templates/a.j2".toList] ([] : List (DataFile Nat))
      (some "templates/foo.html".toList) := by
  decide

/-- Claim C2, amended: a run triggered by a path ending in `.html` loads
the data (the result is unused on this path), then performs the asset copy
and returns without rendering any template. -/
theorem claim_C2_thm {α : Type} (tfiles : List Str) (dfiles : List (DataFile α)) (t : Str)
    (h : ".html".toList.isSuffixOf t = true) :
    render_all tfiles dfiles (some t) = Effect.dataLoaded :: copy_html_files tfiles ∧
    (∀ f, f ∈ tfiles → ".html".toList.isSuffixOf f = true →
      Effect.assetCopied f (siteDest f) ∈ render_all tfiles dfiles (some t)) ∧
    (render_all tfiles dfiles (some t)).all (fun e => !e.isRenderedFile) = true := by
  have h1 : render_all tfiles dfiles (some t) = Effect.dataLoaded :: copy_html_files tfiles := by
    cases t with
    | nil => exact absurd h (by decide)
    | cons c t' =>
      show Effect.dataLoaded :: render_all_templates tfiles (load_data dfiles) (some (c :: t'))
          = _
      simp only [render_all_templates, List.isEmpty_cons, Bool.false_eq_true, if_false, h,
        if_true]
  refine ⟨h1, ?_, ?_⟩
  · intro f hf hsuf
    rw [h1, copy_html_files]
    exact List.mem_cons_of_mem _ (List.mem_map.mpr ⟨f, List.mem_filter.mpr ⟨hf, hsuf⟩, rfl⟩)
  · rw [h1, copy_html_files, List.all_eq_true]
    intro e he
    rcases List.mem_cons.mp he with rfl | he'
    · rfl
    · rcases List.mem_map.mp he' with ⟨g, _, rfl⟩
      rfl

/-- Claim C2, witness: the `.html`-triggered run copies an asset. -/
theorem claim_C2_wit :
    ".html".toList.isSuffixOf "templates/foo.html".toList = true ∧
    Effect.assetCopied "templates/b.html".toList (siteDest "templates/b.html".toList)
      ∈ render_all ["templates/b.html".toList] ([] : List (DataFile Nat))
          (some "templates/foo.html".toList) :=
  ⟨by decide,
    (claim_C2_thm ["templates/b.html".toList] [] "templates/foo.html".toList
        (by decide)).2.1 _ (by decide) (by decide)⟩

/-! Claim C3. -/

/-- Claim C3: a run triggered by a path not ending in `.html` reloads the
data, renders every non-partial template with the freshly loaded context,
and performs no asset copy. -/
theorem claim_C3_thm {α : Type} (tfiles : List Str) (dfiles : List (DataFile α)) (t : Str)
    (h : ".html".toList.isSuffixOf t = false) :
    Effect.dataLoaded ∈ render_all tfiles dfiles (some t) ∧
    (∀ f, f ∈ tfiles → templateFilter f = true →
      Effect.renderedFile f (outputName f) ∈ render_all tfiles dfiles (some t)) ∧
    (render_all tfiles dfiles (some t)).all (fun e => !e.isAssetCopied) = true := by
  have h1 : render_all tfiles dfiles (some t) = Effect.dataLoaded :: renderPhase tfiles := by
    cases t with
    | nil => rfl
    | cons c t' =>
      show Effect.dataLoaded :: render_all_templates tfiles (load_data dfiles) (some (c :: t'))
          = _
      simp only [render_all_templates, List.isEmpty_cons, Bool.false_eq_true, if_false, h]
  rw [h1]
  refine ⟨List.mem_cons_self _ _, ?_, ?_⟩
  · intro f hf hfil
    rw [renderPhase]
    exact List.mem_cons_of_mem _ (List.mem_map.mpr ⟨f, List.mem_filter.mpr ⟨hf, hfil⟩, rfl⟩)
  · rw [renderPhase, List.all_eq_true]
    intro e he
    rcases List.mem_cons.mp he with rfl | he'
    · rfl
    · rcases List.mem_map.mp he' with ⟨g, _, rfl⟩
      rfl

/-- Claim C3, witness: a `data/x.json` trigger reloads data and renders. -/
theorem claim_C3_wit :
    ".html".toList.isSuffixOf "data/x.json".toList = false ∧
    Effect.dataLoaded ∈ render_all ["templates/x/a.html.j2".toList]
      ([] : List (DataFile Nat)) (some "data/x.json".toList) :=
  ⟨by decide,
    (claim_C3_thm ["templates/x/a.html.j2".toList] [] "data/x.json".toList (by decide)).1⟩

/-! Claim C5. -/

/-- Path segments of a path, split at `/`. -/
def splitSeg : Str → List Str
  | [] => [[]]
  | c :: rest =>
    if c = '/' then [] :: splitSeg rest
    else
      match splitSeg rest with
      | s :: t => (c :: s) :: t
      | [] => [[c]]

/-- Modelled from the spec: a file is rendered iff its name ends in a
recognized template suffix and no path segment is literally named
`partials`. -/
def specIsRenderedC5 (p : Str) : Bool :=
  (".j2".toList.isSuffixOf p || ".jinja".toList.isSuffixOf p) &&
    !((splitSeg p).any (fun seg => seg == "partials".toList))

/-- Claim C5, counterexample: `templates/antipartials/x.j2` has a
recognized suffix and no path segment named `partials`, so the claim says
it is always rendered; the source tests `'partials' not in f` - a
substring test - and renders nothing. -/
theorem claim_C5_cex :
    specIsRenderedC5 "templates/antipartials/x.j2".toList = true ∧
    templateFilter "templates/antipartials/x.j2".toList = false ∧
    renderPhase ["templates/antipartials/x.j2".toList] = [] := by
  decide

/-- Claim C5, amended: the rendering loop renders exactly the enumerated
files whose name ends in `.j2` or `.jinja` (hence also `.html.j2` /
`.html.jinja`) and whose full path does not contain the substring
`partials` anywhere; since a path under `templates/partials/` always
contains that substring, such a file is never rendered. -/
theorem claim_C5_thm (tfiles : List Str) (f d : Str) :
    (Effect.renderedFile f d ∈ renderPhase tfiles ↔
      f ∈ tfiles ∧ d = outputName f ∧
        (".j2".toList.isSuffixOf f || ".jinja".toList.isSuffixOf f) = true ∧
        isInfixB "partials".toList f = false) ∧
    (∀ g d' : Str, "templates/partials/".toList.isPrefixOf g = true →
      ¬(Effect.renderedFile g d' ∈ renderPhase tfiles)) := by
  have hiff : ∀ (g d' : Str), Effect.renderedFile g d' ∈ renderPhase tfiles ↔
      g ∈ tfiles ∧ d' = outputName g ∧
        (".j2".toList.isSuffixOf g || ".jinja".toList.isSuffixOf g) = true ∧
        isInfixB "partials".toList g = false := by
    intro g d'
    rw [renderPhase]
    constructor
    · intro hmem
      rcases List.mem_map.mp hmem with ⟨g', hg', heq⟩
      injection heq with e1 e2
      subst e1
      obtain ⟨hgt, hfil⟩ := List.mem_filter.mp hg'
      rw [templateFilter, Bool.and_eq_true] at hfil
      obtain ⟨hsuf, hinf⟩ := hfil
      refine ⟨hgt, e2.symm, hsuf, ?_⟩
      cases hb : isInfixB "partials".toList g'
      · rfl
      · rw [hb] at hinf
        exact absurd hinf (by decide)
    · rintro ⟨hmem, rfl, hsuf, hinf⟩
      refine List.mem_map.mpr ⟨g, List.mem_filter.mpr ⟨hmem, ?_⟩, rfl⟩
      rw [templateFilter, Bool.and_eq_true, hinf]
      exact ⟨hsuf, rfl⟩
  refine ⟨hiff f d, ?_⟩
  intro g d' hpre hmem
  have hinf : isInfixB "partials".toList g = false := ((hiff g d').mp hmem).2.2.2
  rcases (isPrefixOf_eq_true_iff _ _).mp hpre with ⟨r, rfl⟩
  have hg : ("templates/partials/".toList : Str) ++ r
      = "templates/".toList ++ ("partials".toList ++ ('/' :: r)) := rfl
  rw [hg] at hinf
  have htrue : isInfixB "partials".toList
      ("templates/".toList ++ ("partials".toList ++ ('/' :: r))) = true :=
    isInfixB_append_right _ _ _ (isInfixB_self_append _ _)
  rw [hinf] at htrue
  exact Bool.false_ne_true htrue

/-- Claim C5, witness: a non-partial `.j2` template is rendered. -/
theorem claim_C5_wit :
    Effect.renderedFile "templates/x/a.j2".toList (outputName "templates/x/a.j2".toList)
      ∈ renderPhase ["templates/x/a.j2".toList] :=
  (claim_C5_thm ["templates/x/a.j2".toList] "templates/x/a.j2".toList
      (outputName "templates/x/a.j2".toList)).1.mpr
    ⟨by decide, rfl, by decide, by decide⟩

/-! Claim C8. -/

/-- Modelled from the spec: the output path obtained by mirroring the
relative directory structure under `site/` and stripping the terminal
template suffix down to a plain `.html` suffix. -/
def specOutputName (p : Str) : Str :=
  "site/".toList ++
    (let rel := relpathFromTemplates p
     if ".html.j2".toList.isSuffixOf rel then rel.take (rel.length - 3)
     else if ".html.jinja".toList.isSuffixOf rel then rel.take (rel.length - 6)
     else if ".j2".toList.isSuffixOf rel then rel.take (rel.length - 3) ++ ".html".toList
     else if ".jinja".toList.isSuffixOf rel then rel.take (rel.length - 6) ++ ".html".toList
     else rel)

/-- Claim C8, counterexample: the source applies global textual
replacements, not a terminal suffix strip - for `templates/x/b.j2.j2` it
writes `site/x/b.html.html`, while stripping the suffix as the claim
states would give `site/x/b.j2.html`. -/
theorem claim_C8_cex :
    outputName "templates/x/b.j2.j2".toList = "site/x/b.html.html".toList ∧
    specOutputName "templates/x/b.j2.j2".toList = "site/x/b.j2.html".toList ∧
    outputName "templates/x/b.j2.j2".toList ≠ specOutputName "templates/x/b.j2.j2".toList := by
  decide

/-- Claim C8, amended: the output path mirrors the template's relative
directory structure under `site/` and, whenever the suffix patterns occur
in the relative path only at its end (the hypotheses below), equals the
relative path with its template suffix stripped down to `.html`; in
particular `templates/x/a.html.j2` is written exactly to `site/x/a.html`.
For paths with further pattern occurrences the global replacements touch
those too (see the counterexample). -/
theorem claim_C8_thm :
    outputName "templates/x/a.html.j2".toList = "site/x/a.html".toList ∧
    (∀ t : Str,
      occursBeforeB ".html.j2".toList (t ++ ".html.j2".toList) t.length = false →
      noOccB ".j2".toList (t ++ ".html".toList) = true →
      noOccB ".html.jinja".toList (t ++ ".html".toList) = true →
      noOccB ".jinja".toList (t ++ ".html".toList) = true →
      outputName ("templates/".toList ++ t ++ ".html.j2".toList)
        = "site/".toList ++ t ++ ".html".toList) ∧
    (∀ t : Str,
      noOccB ".html.j2".toList (t ++ ".j2".toList) = true →
      occursBeforeB ".j2".toList (t ++ ".j2".toList) t.length = false →
      noOccB ".html.jinja".toList (t ++ ".html".toList) = true →
      noOccB ".jinja".toList (t ++ ".html".toList) = true →
      outputName ("templates/".toList ++ t ++ ".j2".toList)
        = "site/".toList ++ t ++ ".html".toList) ∧
    (∀ t : Str,
      noOccB ".html.j2".toList (t ++ ".html.jinja".toList) = true →
      noOccB ".j2".toList (t ++ ".html.jinja".toList) = true →
      occursBeforeB ".html.jinja".toList (t ++ ".html.jinja".toList) t.length = false →
      noOccB ".jinja".toList (t ++ ".html".toList) = true →
      outputName ("templates/".toList ++ t ++ ".html.jinja".toList)
        = "site/".toList ++ t ++ ".html".toList) ∧
    (∀ t : Str,
      noOccB ".html.j2".toList (t ++ ".jinja".toList) = true →
      noOccB ".j2".toList (t ++ ".jinja".toList) = true →
      noOccB ".html.jinja".toList (t ++ ".jinja".toList) = true →
      occursBeforeB ".jinja".toList (t ++ ".jinja".toList) t.length = false →
      outputName ("templates/".toList ++ t ++ ".jinja".toList)
        = "site/".toList ++ t ++ ".html".toList) := by
  refine ⟨by decide, ?_, ?_, ?_, ?_⟩
  · intro t h1 h2 h3 h4
    rw [List.append_assoc, outputName, relpath_templates, chainReplace,
      replaceAll_tailOnly t (by decide) h1, replaceAll_noOcc h2, replaceAll_noOcc h3,
      replaceAll_noOcc h4, List.append_assoc]
  · intro t h1 h2 h3 h4
    rw [List.append_assoc, outputName, relpath_templates, chainReplace,
      replaceAll_noOcc h1, replaceAll_tailOnly t (by decide) h2, replaceAll_noOcc h3,
      replaceAll_noOcc h4, List.append_assoc]
  · intro t h1 h2 h3 h4
    rw [List.append_assoc, outputName, relpath_templates, chainReplace,
      replaceAll_noOcc h1, replaceAll_noOcc h2, replaceAll_tailOnly t (by decide) h3,
      replaceAll_noOcc h4, List.append_assoc]
  · intro t h1 h2 h3 h4
    rw [List.append_assoc, outputName, relpath_templates, chainReplace,
      replaceAll_noOcc h1, replaceAll_noOcc h2, replaceAll_noOcc h3,
      replaceAll_tailOnly t (by decide) h4, List.append_assoc]

/-- Claim C8, witness: the `.j2` case at the concrete path
`templates/x/c.j2`. -/
theorem claim_C8_wit :
    (noOccB ".html.j2".toList ("x/c".toList ++ ".j2".toList) = true ∧
      occursBeforeB ".j2".toList ("x/c".toList ++ ".j2".toList) "x/c".toList.length = false ∧
      noOccB ".html.jinja".toList ("x/c".toList ++ ".html".toList) = true ∧
      noOccB ".jinja".toList ("x/c".toList ++ ".html".toList) = true) ∧
    outputName ("templates/".toList ++ "x/c".toList ++ ".j2".toList)
      = "site/".toList ++ "x/c".toList ++ ".html".toList :=
  ⟨⟨by decide, by decide, by decide, by decide⟩,
    claim_C8_thm.2.2.1 "x/c".toList (by decide) (by decide) (by decide) (by decide)⟩

end RenderAllLite
